import Mathlib

/-!
Verification of the core game-state machine of the AI Werewolf web game.

The embedding follows `types.ts` (data model) and `App.tsx` (reducer
`gameReducer`, the phase-entry logic `runPhaseLogic`, and the action
handlers).  Stateful React dispatch is modelled by explicit state passing:
each `dispatch(action)` becomes one application of `gameReducer`, and a
handler that dispatches several actions folds them over the state in
program order (`dispatchAll`).  JavaScript string truthiness (`if (x)` on a
`string | null`) is modelled by `strTruthy`: `null` and the empty string
are falsy.  Narration text, log appends and sound effects are presentation
side effects with no influence on the game fields the claims are about;
the model keeps the `logs` field and the `ADD_LOG` action of the reducer,
but the phase logic and handlers are modelled without their log/narration
dispatches.  Timer-deferred dispatches (`setTimeout` pacing) are likewise
not part of the synchronous phase-entry effect and are omitted from
`runPhaseLogic`; every dispatch the code performs synchronously is kept.
-/

namespace AIWerewolf

/-- Role enumeration from `types.ts`. -/
inductive Role
  | WEREWOLF | VILLAGER | SEER | WITCH | HUNTER
deriving DecidableEq, Repr

/-- Game phase enumeration from `types.ts`. -/
inductive GamePhase
  | SETUP | NIGHT_START | NIGHT_WEREWOLF | NIGHT_SEER | NIGHT_WITCH
  | NIGHT_END | DAY_ANNOUNCE | DAY_DISCUSS | DAY_VOTE | DAY_EXECUTE
  | GAME_OVER
deriving DecidableEq, Repr

/-- Winner tag: the `'WEREWOLF' | 'VILLAGER'` union of `GameState.winner`. -/
inductive Winner
  | WEREWOLF | VILLAGER
deriving DecidableEq, Repr

/-- Player record from `types.ts`. -/
structure Player where
  id : String
  name : String
  role : Role
  isBot : Bool
  isAlive : Bool
  isDying : Bool
  isProtected : Bool
  isPoisoned : Bool
  hasActed : Bool
  voteTargetId : Option String
  avatarUrl : String
deriving DecidableEq, Repr

/-- Witch potion pair from `types.ts` (`witchPotions`). -/
structure WitchPotions where
  save : Bool
  poison : Bool
deriving DecidableEq, Repr

/-- Seer check result from `types.ts` (`seerCheckResult`). -/
structure SeerResult where
  name : String
  isWerewolf : Bool
deriving DecidableEq, Repr

/-- Log message from `types.ts`; the `type` discriminator is kept as a string. -/
structure LogMessage where
  id : String
  sender : String
  text : String
  kind : String
deriving DecidableEq, Repr

/-- Game state record from `types.ts`. -/
structure GameState where
  phase : GamePhase
  players : List Player
  humanPlayerId : Option String
  dayCount : Nat
  logs : List LogMessage
  winner : Option Winner
  witchPotions : WitchPotions
  lastKilledId : Option String
  seerCheckResult : Option SeerResult
deriving DecidableEq, Repr

/-- Initial state constant `initialState` of `App.tsx`. -/
def initialState : GameState :=
  { phase := GamePhase.SETUP
    players := []
    humanPlayerId := none
    dayCount := 0
    logs := []
    winner := none
    witchPotions := { save := true, poison := true }
    lastKilledId := none
    seerCheckResult := none }

/-- A `Partial<Player>` update object, restricted to the fields the
application ever places in an `UPDATE_PLAYER` action
(`isAlive`, `isDying`, `isProtected`, `isPoisoned`, `voteTargetId`);
a `none` field is absent from the object and leaves the player field
untouched. -/
structure PlayerUpdates where
  isAlive : Option Bool := none
  isDying : Option Bool := none
  isProtected : Option Bool := none
  isPoisoned : Option Bool := none
  voteTargetId : Option (Option String) := none
deriving DecidableEq, Repr

/-- Which witch potion an action refers to (`'save' | 'poison'`). -/
inductive Potion
  | save | poison
deriving DecidableEq, Repr

/-- Reducer action union from `App.tsx`.  At the JavaScript runtime an
action is any object carrying a string `type`; a tag outside the union
falls into the reducer's `default` branch, modelled by `OTHER`. -/
inductive Action
  | START_GAME (players : List Player) (humanId : String)
  | NEXT_PHASE (phase : GamePhase)
  | ADD_LOG (message : LogMessage)
  | UPDATE_PLAYER (playerId : String) (updates : PlayerUpdates)
  | SET_WITCH_POTION (potion : Potion) (used : Bool)
  | SET_LAST_KILLED (playerId : Option String)
  | SET_SEER_RESULT (result : Option SeerResult)
  | SET_WINNER (winner : Winner)
  | RESET_GAME
  | INCREMENT_DAY
  | OTHER (tag : String)

/-- Spread `{ ...p, ...updates }` of a partial update over a player. -/
def applyUpdates (p : Player) (u : PlayerUpdates) : Player :=
  { p with
    isAlive := u.isAlive.getD p.isAlive
    isDying := u.isDying.getD p.isDying
    isProtected := u.isProtected.getD p.isProtected
    isPoisoned := u.isPoisoned.getD p.isPoisoned
    voteTargetId := u.voteTargetId.getD p.voteTargetId }

/-- Computed-key spread `{ ...state.witchPotions, [action.potion]: v }`. -/
def setPotion (w : WitchPotions) (potion : Potion) (v : Bool) : WitchPotions :=
  match potion with
  | Potion.save => { w with save := v }
  | Potion.poison => { w with poison := v }

/-- The reducer `gameReducer` of `App.tsx`, case for case. -/
def gameReducer (state : GameState) (action : Action) : GameState :=
  match action with
  | Action.START_GAME players humanId =>
      { initialState with
        phase := GamePhase.NIGHT_START
        players := players
        humanPlayerId := some humanId
        dayCount := 1 }
  | Action.NEXT_PHASE phase => { state with phase := phase }
  | Action.ADD_LOG message => { state with logs := state.logs ++ [message] }
  | Action.UPDATE_PLAYER playerId updates =>
      { state with
        players := state.players.map
          (fun p => if p.id = playerId then applyUpdates p updates else p) }
  | Action.SET_WITCH_POTION potion used =>
      { state with witchPotions := setPotion state.witchPotions potion (!used) }
  | Action.SET_LAST_KILLED playerId => { state with lastKilledId := playerId }
  | Action.SET_SEER_RESULT result => { state with seerCheckResult := result }
  | Action.SET_WINNER winner => { state with winner := some winner }
  | Action.RESET_GAME => initialState
  | Action.INCREMENT_DAY => { state with dayCount := state.dayCount + 1 }
  | Action.OTHER _ => state

/-- Dispatch a list of actions in program order. -/
def dispatchAll (s : GameState) (as : List Action) : GameState :=
  as.foldl gameReducer s

/-- JavaScript truthiness of a `string | null` value: `null` and the empty
string are falsy. -/
def strTruthy : Option String → Bool
  | none => false
  | some t => !(decide (t = ""))

/-- Count of alive WEREWOLF players (`aliveWolves` in `runPhaseLogic`). -/
def aliveWolves (ps : List Player) : Nat :=
  (ps.filter (fun p => p.isAlive && decide (p.role = Role.WEREWOLF))).length

/-- Count of alive non-WEREWOLF players (`aliveGood` in `runPhaseLogic`). -/
def aliveGood (ps : List Player) : Nat :=
  (ps.filter (fun p => p.isAlive && !(decide (p.role = Role.WEREWOLF)))).length

/-- The NIGHT_END elimination condition `(p.isDying && !p.isProtected) || p.isPoisoned`. -/
def deathCond (p : Player) : Bool :=
  (p.isDying && !p.isProtected) || p.isPoisoned

/-- The reset payload dispatched for every player on NIGHT_START entry. -/
def nightResetUpdates : PlayerUpdates :=
  { isDying := some false
    isProtected := some false
    isPoisoned := some false
    voteTargetId := some none }

/-- NIGHT_START entry effect: one `UPDATE_PLAYER` reset per roster player,
then `SET_LAST_KILLED null` (the narration request and the timer-deferred
phase advance are omitted, see the file comment). -/
def nightStartLogic (s : GameState) : GameState :=
  dispatchAll s
    (s.players.map (fun p => Action.UPDATE_PLAYER p.id nightResetUpdates)
      ++ [Action.SET_LAST_KILLED none])

/-- NIGHT_END entry effect: one `UPDATE_PLAYER { isAlive: false }` per
snapshot player satisfying `deathCond`, then a synchronous advance to
DAY_ANNOUNCE. -/
def nightEndLogic (s : GameState) : GameState :=
  dispatchAll s
    ((s.players.filter deathCond).map
        (fun p => Action.UPDATE_PLAYER p.id { isAlive := some false })
      ++ [Action.NEXT_PHASE GamePhase.DAY_ANNOUNCE])

/-- The truthy `voteTargetId` values of the alive players, in roster order:
the votes the DAY_EXECUTE tally loop actually registers. -/
def votesCast (ps : List Player) : List String :=
  (ps.filter (fun p => p.isAlive)).filterMap
    (fun p => match p.voteTargetId with
      | some t => if t = "" then none else some t
      | none => none)

/-- One step of the JavaScript object update
`votes[t] = (votes[t] || 0) + 1`: a plain object keeps at most one entry
per key, preserves insertion order on update, and appends new keys. -/
def bumpVote : List (String × Nat) → String → List (String × Nat)
  | [], t => [(t, 1)]
  | (k, n) :: rest, t =>
      if k = t then (k, n + 1) :: rest else (k, n) :: bumpVote rest t

/-- The `votes` object of the DAY_EXECUTE case, as an insertion-ordered
association list. -/
def buildVotes (ps : List Player) : List (String × Nat) :=
  (votesCast ps).foldl bumpVote []

/-- One iteration of the `Object.entries(votes).forEach` maximum scan over
the running `(maxVotes, victimId, tie)` accumulator. -/
def voteStep (acc : Nat × Option String × Bool) (e : String × Nat) :
    Nat × Option String × Bool :=
  if acc.1 < e.2 then (e.2, some e.1, false)
  else if e.2 = acc.1 then (acc.1, acc.2.1, true)
  else acc

/-- DAY_EXECUTE entry effect: tally, maximum scan, and the conditional
execution dispatch (the timer-deferred `INCREMENT_DAY` / advance to
NIGHT_START are omitted, see the file comment). -/
def dayExecuteLogic (s : GameState) : GameState :=
  let votes := buildVotes s.players
  let scan := votes.foldl voteStep (0, none, false)
  if strTruthy scan.2.1 && !scan.2.2 then
    match s.players.find? (fun p => decide (some p.id = scan.2.1)) with
    | some victim =>
        dispatchAll s [Action.UPDATE_PLAYER victim.id { isAlive := some false }]
    | none => s
  else s

/-- Bot voting (`handleBotVoting`): every alive bot votes for a uniformly
chosen other alive player; the random draw for the bot at position `i` of
the alive-players snapshot is modelled by `rand i` reduced modulo the pool
size. -/
def handleBotVoting (rand : Nat → Nat) (s : GameState) : GameState :=
  let alive := s.players.filter (fun p => p.isAlive)
  (alive.enum).foldl
    (fun st (e : Nat × Player) =>
      if e.2.isBot then
        let others := alive.filter (fun p => !(decide (p.id = e.2.id)))
        if 0 < others.length then
          let target := others.getD (rand e.1 % others.length) e.2
          gameReducer st
            (Action.UPDATE_PLAYER e.2.id { voteTargetId := some (some target.id) })
        else st
      else st)
    s

/-- The `switch (state.phase)` body of `runPhaseLogic`: the synchronous
dispatches of each phase case.  Phases whose only synchronous work is a
log append or a timer/bot schedule leave the state unchanged. -/
def phaseEntryLogic (rand : Nat → Nat) (s : GameState) : GameState :=
  match s.phase with
  | GamePhase.NIGHT_START => nightStartLogic s
  | GamePhase.NIGHT_END => nightEndLogic s
  | GamePhase.DAY_VOTE => handleBotVoting rand s
  | GamePhase.DAY_EXECUTE => dayExecuteLogic s
  | _ => s

/-- The phase-entry evaluator `runPhaseLogic` of `App.tsx`: the win-check
gate (skipped during SETUP and after GAME_OVER, first match returns
immediately) followed by the phase-specific dispatches. -/
def runPhaseLogic (rand : Nat → Nat) (s : GameState) : GameState :=
  if s.phase ≠ GamePhase.SETUP ∧ s.phase ≠ GamePhase.GAME_OVER then
    if aliveWolves s.players = 0 then
      dispatchAll s
        [Action.SET_WINNER Winner.VILLAGER, Action.NEXT_PHASE GamePhase.GAME_OVER]
    else if aliveGood s.players ≤ aliveWolves s.players then
      dispatchAll s
        [Action.SET_WINNER Winner.WEREWOLF, Action.NEXT_PHASE GamePhase.GAME_OVER]
    else phaseEntryLogic rand s
  else phaseEntryLogic rand s

/-- Lookup of the human player (`getHumanPlayer` in `App.tsx`). -/
def getHumanPlayer (s : GameState) : Option Player :=
  s.players.find? (fun p => decide (some p.id = s.humanPlayerId))

/-- The alive non-werewolf pool the bot werewolf draws from. -/
def aliveGoodPool (s : GameState) : List Player :=
  s.players.filter (fun p => p.isAlive && !(decide (p.role = Role.WEREWOLF)))

/-- Bot werewolf kill (`handleBotWerewolfAction`): with a non-empty pool of
alive non-werewolves, pick a uniform target (`rand` reduced modulo the pool
size models `Math.floor(Math.random() * length)`), record it as
`lastKilledId` and mark it dying; with an empty pool, do nothing. -/
def handleBotWerewolfAction (rand : Nat) (s : GameState) : GameState :=
  let pool := aliveGoodPool s
  if h : 0 < pool.length then
    let target := pool.get ⟨rand % pool.length, Nat.mod_lt rand h⟩
    dispatchAll s
      [Action.SET_LAST_KILLED (some target.id),
       Action.UPDATE_PLAYER target.id { isDying := some true }]
  else s

/-- Bot seer action (`handleBotSeerAction`): the source body is empty. -/
def handleBotSeerAction (s : GameState) : GameState := s

/-- Bot witch action (`handleBotWitchAction`): the source body is empty. -/
def handleBotWitchAction (s : GameState) : GameState := s

/-- Human confirm action (`handleHumanAction`): the component-level
`selectedTargetId` is passed in as `target`.  Guards, branch conditions
and dispatches follow the source; the seer branch's phase advance sits in
a `setTimeout` and is omitted like every timer-deferred dispatch. -/
def handleHumanAction (target : Option String) (s : GameState) : GameState :=
  match getHumanPlayer s with
  | none => s
  | some human =>
    if !human.isAlive then s
    else if !strTruthy target && decide (s.phase ≠ GamePhase.DAY_DISCUSS) then s
    else if s.phase = GamePhase.NIGHT_WEREWOLF ∧ human.role = Role.WEREWOLF then
      match target with
      | some t =>
          dispatchAll s
            [Action.SET_LAST_KILLED (some t),
             Action.UPDATE_PLAYER t { isDying := some true },
             Action.NEXT_PHASE GamePhase.NIGHT_SEER]
      | none => s
    else if s.phase = GamePhase.NIGHT_SEER ∧ human.role = Role.SEER then
      match target with
      | some t =>
          match s.players.find? (fun p => decide (p.id = t)) with
          | some tp =>
              dispatchAll s
                [Action.SET_SEER_RESULT
                  (some { name := tp.name
                          isWerewolf := decide (tp.role = Role.WEREWOLF) })]
          | none => s
      | none => s
    else if s.phase = GamePhase.DAY_VOTE then
      match target with
      | some t =>
          dispatchAll s
            [Action.UPDATE_PLAYER human.id { voteTargetId := some (some t) },
             Action.NEXT_PHASE GamePhase.DAY_EXECUTE]
      | none => s
    else s

/-- Witch save (`handleWitchSave`): guarded by a truthy `lastKilledId` and
an unused save potion; clears `isDying`, sets `isProtected` on the marked
player, and consumes the potion. -/
def handleWitchSave (s : GameState) : GameState :=
  if strTruthy s.lastKilledId then
    if s.witchPotions.save then
      match s.lastKilledId with
      | some k =>
          dispatchAll s
            [Action.UPDATE_PLAYER k
               { isDying := some false, isProtected := some true },
             Action.SET_WITCH_POTION Potion.save true]
      | none => s
    else s
  else s

/-- Witch poison (`handleWitchPoison`): guarded by a truthy selected target
and an unused poison potion; marks the target poisoned, consumes the
potion and advances to NIGHT_END. -/
def handleWitchPoison (target : Option String) (s : GameState) : GameState :=
  if strTruthy target then
    if s.witchPotions.poison then
      match target with
      | some t =>
          dispatchAll s
            [Action.UPDATE_PLAYER t { isPoisoned := some true },
             Action.SET_WITCH_POTION Potion.poison true,
             Action.NEXT_PHASE GamePhase.NIGHT_END]
      | none => s
    else s
  else s

/-- Skip button (`skipPhase`): both `if` statements read the same phase
snapshot, so at most one fires. -/
def skipPhase (s : GameState) : GameState :=
  if s.phase = GamePhase.NIGHT_WITCH then
    gameReducer s (Action.NEXT_PHASE GamePhase.NIGHT_END)
  else if s.phase = GamePhase.DAY_DISCUSS then
    gameReducer s (Action.NEXT_PHASE GamePhase.DAY_VOTE)
  else s

/-- An application-level event inside one running game: every way the
application mutates the game state between a game start and the next
reset (log appends and narration are presentation and carry no game
fields). -/
inductive GameEvent
  | phaseEval (rand : Nat → Nat)
  | humanConfirm (target : Option String)
  | witchSave
  | witchPoison (target : Option String)
  | botWerewolf (rand : Nat)
  | botSeer
  | botWitch
  | botVote (rand : Nat → Nat)
  | skip

/-- Apply one application-level event to the state. -/
def stepEvent : GameEvent → GameState → GameState
  | GameEvent.phaseEval rand, s => runPhaseLogic rand s
  | GameEvent.humanConfirm target, s => handleHumanAction target s
  | GameEvent.witchSave, s => handleWitchSave s
  | GameEvent.witchPoison target, s => handleWitchPoison target s
  | GameEvent.botWerewolf rand, s => handleBotWerewolfAction rand s
  | GameEvent.botSeer, s => handleBotSeerAction s
  | GameEvent.botWitch, s => handleBotWitchAction s
  | GameEvent.botVote rand, s => handleBotVoting rand s
  | GameEvent.skip, s => skipPhase s

/-- Run a list of events in order. -/
def runEvents (es : List GameEvent) (s : GameState) : GameState :=
  es.foldl (fun st e => stepEvent e st) s

/-- All intermediate states of a run, the start state included. -/
def traceStates : GameState → List GameEvent → List GameState
  | s, [] => [s]
  | s, e :: es => s :: traceStates (stepEvent e s) es

/-- Number of `true` → `false` edges in a boolean sequence. -/
def flipCount : List Bool → Nat
  | [] => 0
  | [_] => 0
  | a :: b :: l => (if a && !b then 1 else 0) + flipCount (b :: l)

/-- Configuration failure for an unsupported player count. -/
structure ConfigurationError where
  message : String
deriving DecidableEq, Repr

/-- Modelled from the spec: the Role Distribution Planner
(`getRoleDistribution`, exported by `constants.ts`) is not among the
available sources — only its call site in `handleStartGame` is.  The
definition follows the spec's words: a fixed count table keyed on
player-count bands, exactly one SEER and one WITCH, a werewolf count that
grows with the band (more players mean more werewolves), one HUNTER in the
upper bands (more players mean more special roles), villagers filling the
remainder, and a `ConfigurationError` outside the supported range
`[6, 18]`.  The band boundaries reproduce the spec's 6-player end-to-end
scenario of one werewolf, one seer, one witch and three villagers. -/
def getRoleDistribution (playerCount : Nat) :
    Except ConfigurationError (List Role) :=
  if playerCount < 6 ∨ 18 < playerCount then
    Except.error { message := "playerCount outside the supported range 6-18" }
  else
    let wolves := if playerCount ≤ 10 then 1 else if playerCount ≤ 14 then 2 else 3
    let hunters := if 12 ≤ playerCount then 1 else 0
    let villagers := playerCount - wolves - 2 - hunters
    Except.ok
      (List.replicate wolves Role.WEREWOLF
        ++ [Role.SEER, Role.WITCH]
        ++ List.replicate hunters Role.HUNTER
        ++ List.replicate villagers Role.VILLAGER)

/-- Array destructuring swap `[roles[i], roles[j]] = [roles[j], roles[i]]`. -/
def swapAt (l : List α) (i j : Nat) : List α :=
  match l.get? i, l.get? j with
  | some x, some y => (l.set i y).set j x
  | _, _ => l

/-- Loop indices `i = length - 1, ..., 1` of the shuffle loop in
`handleStartGame`. -/
def downIndices (n : Nat) : List Nat :=
  ((List.range n).filter (fun i => decide (0 < i))).reverse

/-- The in-place Fisher-Yates shuffle of `handleStartGame`: for each index
`i` from the top down, swap position `i` with position
`j = Math.floor(Math.random() * (i + 1))`, modelled by `randj i` reduced
modulo `i + 1`. -/
def fisherYates (randj : Nat → Nat) (l : List α) : List α :=
  (downIndices l.length).foldl (fun acc i => swapAt acc i (randj i % (i + 1))) l

/-- Number of votes candidate `c` receives from the currently alive
players: the reading of the claim's vote multiset over a state. -/
def voteCount (s : GameState) (c : String) : Nat :=
  (s.players.filter (fun p => p.isAlive)).countP
    (fun p => decide (p.voteTargetId = some c))

/-- Convenience constructor for concrete roster players in witnesses. -/
def mkPlayer (id : String) (role : Role) (alive : Bool) : Player :=
  { id := id
    name := id
    role := role
    isBot := true
    isAlive := alive
    isDying := false
    isProtected := false
    isPoisoned := false
    hasActed := false
    voteTargetId := none
    avatarUrl := "" }

/-! ### Generic lemmas about the reducer and dispatched update batches -/

theorem applyUpdates_id (p : Player) (u : PlayerUpdates) :
    (applyUpdates p u).id = p.id := rfl

theorem applyUpdates_idem (p : Player) (u : PlayerUpdates) :
    applyUpdates (applyUpdates p u) u = applyUpdates p u := by
  obtain ⟨a, d, pr, po, v⟩ := u
  cases a <;> cases d <;> cases pr <;> cases po <;> cases v <;> rfl

theorem dispatchAll_append (s : GameState) (l₁ l₂ : List Action) :
    dispatchAll s (l₁ ++ l₂) = dispatchAll (dispatchAll s l₁) l₂ := by
  simp [dispatchAll, List.foldl_append]

/-- A batch of `UPDATE_PLAYER` dispatches with one shared payload, one per
id in `ids`, is the single pass that applies the payload to every roster
player whose id occurs in `ids`. -/
theorem dispatch_updates_eq (ids : List String) (u : PlayerUpdates)
    (s : GameState) :
    dispatchAll s (ids.map (fun i => Action.UPDATE_PLAYER i u)) =
      { s with players :=
          s.players.map (fun q => if q.id ∈ ids then applyUpdates q u else q) } := by
  induction ids generalizing s with
  | nil => simp [dispatchAll]
  | cons i rest ih =>
      have hstep :
          dispatchAll s ((i :: rest).map (fun j => Action.UPDATE_PLAYER j u)) =
            dispatchAll
              { s with players :=
                  s.players.map (fun q => if q.id = i then applyUpdates q u else q) }
              (rest.map (fun j => Action.UPDATE_PLAYER j u)) := rfl
      rw [hstep, ih]
      have hmaps :
          (s.players.map (fun q => if q.id = i then applyUpdates q u else q)).map
              (fun q => if q.id ∈ rest then applyUpdates q u else q) =
            s.players.map (fun q => if q.id ∈ i :: rest then applyUpdates q u else q) := by
        rw [List.map_map]
        apply List.map_congr_left
        intro q _
        by_cases hqi : q.id = i
        · by_cases hqr : q.id ∈ rest <;>
            simp [Function.comp, hqi, hqr, applyUpdates_id, applyUpdates_idem,
              List.mem_cons]
        · by_cases hqr : q.id ∈ rest <;>
            simp [Function.comp, hqi, hqr, List.mem_cons]
      rw [hmaps]

/-! ### C10: totality and defensiveness of the reducer -/

/-- C10: `gameReducer` is a total function (in this embedding it is a
structurally total Lean function, mirroring that every code path of the
source returns a state); an `UPDATE_PLAYER` whose id matches no roster
player returns the state with the players list unchanged, and an action
with an unrecognized type tag falls into the `default` branch and returns
the state unchanged. -/
theorem gameReducer_total_defensive (s : GameState) (pid tag : String)
    (u : PlayerUpdates) (h : ∀ p ∈ s.players, p.id ≠ pid) :
    gameReducer s (Action.UPDATE_PLAYER pid u) = s ∧
    gameReducer s (Action.OTHER tag) = s := by
  constructor
  · have hmap :
        s.players.map (fun q => if q.id = pid then applyUpdates q u else q) =
          s.players := by
      conv_rhs => rw [← List.map_id s.players]
      apply List.map_congr_left
      intro q hq
      simp [h q hq]
    show { s with players := _ } = s
    rw [hmap]
  · rfl

/-- Witness for C10 at a concrete one-player roster and a bogus id/tag. -/
theorem gameReducer_total_defensive_witness :
    gameReducer { initialState with players := [mkPlayer "p-0" Role.VILLAGER true] }
        (Action.UPDATE_PLAYER "p-9" {}) =
      { initialState with players := [mkPlayer "p-0" Role.VILLAGER true] } ∧
    gameReducer { initialState with players := [mkPlayer "p-0" Role.VILLAGER true] }
        (Action.OTHER "BOGUS") =
      { initialState with players := [mkPlayer "p-0" Role.VILLAGER true] } :=
  gameReducer_total_defensive _ "p-9" "BOGUS" {} (by decide)

/-! ### C2: the win-condition gate -/

/-- C2: on every phase evaluation outside SETUP and GAME_OVER, zero alive
werewolves yields a VILLAGER win and a transition to GAME_OVER; otherwise
an alive-werewolf count at least the alive-non-werewolf count yields a
WEREWOLF win; the zero-werewolf branch is tested first (the first conjunct
carries no non-majority hypothesis, so it also decides the overlap where
both conditions hold), and on either outcome the returned state differs
from the entry state only in `winner` and `phase` — the phase's normal
entry effects are skipped by the early return. -/
theorem winCheck_gate (s : GameState) (rand : Nat → Nat)
    (h1 : s.phase ≠ GamePhase.SETUP) (h2 : s.phase ≠ GamePhase.GAME_OVER) :
    (aliveWolves s.players = 0 →
      runPhaseLogic rand s =
        { s with winner := some Winner.VILLAGER, phase := GamePhase.GAME_OVER }) ∧
    (aliveWolves s.players ≠ 0 → aliveGood s.players ≤ aliveWolves s.players →
      runPhaseLogic rand s =
        { s with winner := some Winner.WEREWOLF, phase := GamePhase.GAME_OVER }) := by
  unfold runPhaseLogic
  rw [if_pos ⟨h1, h2⟩]
  constructor
  · intro hw
    rw [if_pos hw]
    rfl
  · intro hw hge
    rw [if_neg hw, if_pos hge]
    rfl

/-- Witness for C2: a roster whose only werewolf is dead gives the
VILLAGER win on a DAY_VOTE evaluation. -/
theorem winCheck_gate_witness :
    runPhaseLogic (fun _ => 0)
        { initialState with
          phase := GamePhase.DAY_VOTE
          players := [mkPlayer "p-0" Role.WEREWOLF false, mkPlayer "p-1" Role.VILLAGER true] } =
      { initialState with
        phase := GamePhase.GAME_OVER
        players := [mkPlayer "p-0" Role.WEREWOLF false, mkPlayer "p-1" Role.VILLAGER true]
        winner := some Winner.VILLAGER } :=
  (winCheck_gate _ (fun _ => 0) (by decide) (by decide)).1 (by decide)

/-! ### C6: the witch save guard -/

/-- C6: the witch save changes the state exactly when `lastKilledId` holds
a (truthy, i.e. non-empty — JavaScript string truthiness) id and the save
potion is unused; when legal it applies `isDying := false`,
`isProtected := true` to precisely the roster players carrying that id and
consumes the save potion, and when illegal it returns the state
unchanged. -/
theorem handleWitchSave_guard (s : GameState) :
    ((s.lastKilledId = none ∨ s.lastKilledId = some "" ∨
        s.witchPotions.save = false) → handleWitchSave s = s) ∧
    (∀ k, s.lastKilledId = some k → k ≠ "" → s.witchPotions.save = true →
      handleWitchSave s =
        { s with
          players := s.players.map (fun p =>
            if p.id = k then { p with isDying := false, isProtected := true } else p)
          witchPotions := { s.witchPotions with save := false } }) := by
  constructor
  · intro hill
    rcases hill with hn | he | hu
    · simp [handleWitchSave, hn, strTruthy]
    · simp [handleWitchSave, he, strTruthy]
    · unfold handleWitchSave
      rw [hu]
      cases hst : strTruthy s.lastKilledId <;> simp
  · intro k hk hne hu
    have hst : strTruthy (some k) = true := by simp [strTruthy, hne]
    have hred : handleWitchSave s =
        dispatchAll s
          [Action.UPDATE_PLAYER k { isDying := some false, isProtected := some true },
           Action.SET_WITCH_POTION Potion.save true] := by
      unfold handleWitchSave
      rw [hk, hst, hu]
      rfl
    rw [hred]
    rfl

/-- Witness for C6: both the illegal no-op (used potion) and the legal
case on a marked player. -/
theorem handleWitchSave_guard_witness :
    handleWitchSave
        { initialState with
          players := [mkPlayer "p-0" Role.VILLAGER true]
          witchPotions := { save := false, poison := true }
          lastKilledId := some "p-0" } =
      { initialState with
        players := [mkPlayer "p-0" Role.VILLAGER true]
        witchPotions := { save := false, poison := true }
        lastKilledId := some "p-0" } ∧
    handleWitchSave
        { initialState with
          players := [mkPlayer "p-0" Role.VILLAGER true]
          lastKilledId := some "p-0" } =
      { initialState with
        players := [{ mkPlayer "p-0" Role.VILLAGER true with isProtected := true }]
        witchPotions := { save := false, poison := true }
        lastKilledId := some "p-0" } := by
  constructor
  · exact (handleWitchSave_guard _).1 (Or.inr (Or.inr rfl))
  · have h := (handleWitchSave_guard
      { initialState with
        players := [mkPlayer "p-0" Role.VILLAGER true]
        lastKilledId := some "p-0" }).2 "p-0" rfl (by decide) rfl
    rw [h]
    decide

/-! ### C9: the witch poison acts without phase or aliveness checks -/

/-- C9: with the poison potion unused and any truthy selected target id,
the witch poison handler marks every roster player carrying that id as
poisoned, consumes the poison potion and advances the phase to NIGHT_END;
the statement carries no hypothesis on the current phase or on the
target's aliveness, so the effect also fires outside NIGHT_WITCH and on
dead targets. -/
theorem handleWitchPoison_unchecked (s : GameState) (t : String)
    (hp : s.witchPotions.poison = true) (hne : t ≠ "")
    (hmem : t ∈ s.players.map Player.id) :
    handleWitchPoison (some t) s =
      { s with
        players := s.players.map (fun p =>
          if p.id = t then { p with isPoisoned := true } else p)
        witchPotions := { s.witchPotions with poison := false }
        phase := GamePhase.NIGHT_END } ∧
    ∃ p ∈ (handleWitchPoison (some t) s).players, p.id = t ∧ p.isPoisoned = true := by
  have hst : strTruthy (some t) = true := by simp [strTruthy, hne]
  have heq : handleWitchPoison (some t) s =
      { s with
        players := s.players.map (fun p =>
          if p.id = t then { p with isPoisoned := true } else p)
        witchPotions := { s.witchPotions with poison := false }
        phase := GamePhase.NIGHT_END } := by
    unfold handleWitchPoison
    rw [hst, hp]
    rfl
  refine ⟨heq, ?_⟩
  obtain ⟨p, hpm, hpid⟩ := List.mem_map.mp hmem
  refine ⟨{ p with isPoisoned := true }, ?_, hpid, rfl⟩
  rw [heq]
  exact List.mem_map.mpr ⟨p, hpm, by simp [hpid]⟩

/-- Witness for C9: a dead villager is poisoned during DAY_DISCUSS. -/
theorem handleWitchPoison_unchecked_witness :
    handleWitchPoison (some "p-1")
        { initialState with
          phase := GamePhase.DAY_DISCUSS
          players := [mkPlayer "p-0" Role.WITCH true, mkPlayer "p-1" Role.VILLAGER false] } =
      { initialState with
        phase := GamePhase.NIGHT_END
        players := [mkPlayer "p-0" Role.WITCH true,
          { mkPlayer "p-1" Role.VILLAGER false with isPoisoned := true }]
        witchPotions := { save := true, poison := false } } := by
  have h := (handleWitchPoison_unchecked
    { initialState with
      phase := GamePhase.DAY_DISCUSS
      players := [mkPlayer "p-0" Role.WITCH true, mkPlayer "p-1" Role.VILLAGER false] }
    "p-1" rfl (by decide) (by decide)).1
  rw [h]
  decide

/-! ### Gate-passing reductions of the phase evaluator -/

/-- When neither win branch fires, the evaluator runs the phase body. -/
theorem runPhaseLogic_no_win (s : GameState) (rand : Nat → Nat)
    (h1 : s.phase ≠ GamePhase.SETUP) (h2 : s.phase ≠ GamePhase.GAME_OVER)
    (hw : aliveWolves s.players ≠ 0)
    (hg : aliveWolves s.players < aliveGood s.players) :
    runPhaseLogic rand s = phaseEntryLogic rand s := by
  unfold runPhaseLogic
  rw [if_pos ⟨h1, h2⟩, if_neg hw, if_neg (Nat.not_le.mpr hg)]

theorem phaseEntryLogic_night_start (s : GameState) (rand : Nat → Nat)
    (hφ : s.phase = GamePhase.NIGHT_START) :
    phaseEntryLogic rand s = nightStartLogic s := by
  unfold phaseEntryLogic
  rw [hφ]

theorem phaseEntryLogic_night_end (s : GameState) (rand : Nat → Nat)
    (hφ : s.phase = GamePhase.NIGHT_END) :
    phaseEntryLogic rand s = nightEndLogic s := by
  unfold phaseEntryLogic
  rw [hφ]

theorem phaseEntryLogic_day_execute (s : GameState) (rand : Nat → Nat)
    (hφ : s.phase = GamePhase.DAY_EXECUTE) :
    phaseEntryLogic rand s = dayExecuteLogic s := by
  unfold phaseEntryLogic
  rw [hφ]

/-- The NIGHT_START batch in closed form: every player is reset and
`lastKilledId` is cleared. -/
theorem nightStartLogic_eq (s : GameState) :
    nightStartLogic s =
      { s with
        players := s.players.map (fun q => applyUpdates q nightResetUpdates)
        lastKilledId := none } := by
  unfold nightStartLogic
  rw [dispatchAll_append]
  rw [show s.players.map (fun p => Action.UPDATE_PLAYER p.id nightResetUpdates) =
      (s.players.map Player.id).map
        (fun i => Action.UPDATE_PLAYER i nightResetUpdates) by
    rw [List.map_map]; rfl]
  rw [dispatch_updates_eq]
  have hmap : s.players.map (fun q =>
        if q.id ∈ s.players.map Player.id then applyUpdates q nightResetUpdates else q) =
      s.players.map (fun q => applyUpdates q nightResetUpdates) := by
    apply List.map_congr_left
    intro q hq
    rw [if_pos (List.mem_map_of_mem Player.id hq)]
  rw [hmap]
  rfl

/-! ### C4: NIGHT_START neutralizes the transient night state -/

/-- C4: immediately after the NIGHT_START entry effect runs (the win gate
lets reachable night-start states through), every player has `isDying`,
`isProtected` and `isPoisoned` false and `voteTargetId` null, and
`lastKilledId` is null. -/
theorem nightStart_resets (s : GameState) (rand : Nat → Nat)
    (hφ : s.phase = GamePhase.NIGHT_START)
    (hw : aliveWolves s.players ≠ 0)
    (hg : aliveWolves s.players < aliveGood s.players) :
    (∀ p ∈ (runPhaseLogic rand s).players,
      p.isDying = false ∧ p.isProtected = false ∧ p.isPoisoned = false ∧
        p.voteTargetId = none) ∧
    (runPhaseLogic rand s).lastKilledId = none := by
  have h1 : s.phase ≠ GamePhase.SETUP := by rw [hφ]; decide
  have h2 : s.phase ≠ GamePhase.GAME_OVER := by rw [hφ]; decide
  rw [runPhaseLogic_no_win s rand h1 h2 hw hg, phaseEntryLogic_night_start s rand hφ,
    nightStartLogic_eq]
  refine ⟨?_, rfl⟩
  intro p hp
  obtain ⟨q, _, rfl⟩ := List.mem_map.mp hp
  exact ⟨rfl, rfl, rfl, rfl⟩

/-- Witness for C4 on a dirty three-player roster. -/
theorem nightStart_resets_witness :
    (∀ p ∈ (runPhaseLogic (fun _ => 0)
        { initialState with
          phase := GamePhase.NIGHT_START
          players :=
            [{ mkPlayer "p-0" Role.WEREWOLF true with isDying := true },
             { mkPlayer "p-1" Role.VILLAGER true with isPoisoned := true, voteTargetId := some "p-0" },
             { mkPlayer "p-2" Role.SEER true with isProtected := true }]
          lastKilledId := some "p-1" }).players,
      p.isDying = false ∧ p.isProtected = false ∧ p.isPoisoned = false ∧
        p.voteTargetId = none) ∧
    (runPhaseLogic (fun _ => 0)
        { initialState with
          phase := GamePhase.NIGHT_START
          players :=
            [{ mkPlayer "p-0" Role.WEREWOLF true with isDying := true },
             { mkPlayer "p-1" Role.VILLAGER true with isPoisoned := true, voteTargetId := some "p-0" },
             { mkPlayer "p-2" Role.SEER true with isProtected := true }]
          lastKilledId := some "p-1" }).lastKilledId = none :=
  nightStart_resets _ (fun _ => 0) rfl (by decide) (by decide)

/-! ### C1: NIGHT_END death resolution -/

/-- The NIGHT_END batch in closed form over a roster with distinct ids:
a player ends up not-alive exactly when it satisfied
`(isDying && !isProtected) || isPoisoned` at entry, every other field and
every non-matching player is untouched, and the phase advances to
DAY_ANNOUNCE. -/
theorem nightEndLogic_eq (s : GameState)
    (hids : (s.players.map Player.id).Nodup) :
    nightEndLogic s =
      { s with
        players := s.players.map (fun p =>
          if deathCond p then { p with isAlive := false } else p)
        phase := GamePhase.DAY_ANNOUNCE } := by
  unfold nightEndLogic
  rw [dispatchAll_append]
  rw [show (s.players.filter deathCond).map
        (fun p => Action.UPDATE_PLAYER p.id { isAlive := some false }) =
      ((s.players.filter deathCond).map Player.id).map
        (fun i => Action.UPDATE_PLAYER i
          ({ isAlive := some false } : PlayerUpdates)) by
    rw [List.map_map]; rfl]
  rw [dispatch_updates_eq]
  have hmap : s.players.map (fun q =>
        if q.id ∈ (s.players.filter deathCond).map Player.id then
          applyUpdates q { isAlive := some false } else q) =
      s.players.map (fun p =>
        if deathCond p then { p with isAlive := false } else p) := by
    apply List.map_congr_left
    intro q hq
    by_cases hd : deathCond q = true
    · rw [if_pos (List.mem_map_of_mem Player.id (List.mem_filter.mpr ⟨hq, hd⟩)),
        if_pos hd]
      rfl
    · have hnm : q.id ∉ (s.players.filter deathCond).map Player.id := by
        intro hmem
        obtain ⟨p, hpf, hpq⟩ := List.mem_map.mp hmem
        obtain ⟨hpmem, hpd⟩ := List.mem_filter.mp hpf
        exact hd (List.inj_on_of_nodup_map hids hpmem hq hpq ▸ hpd)
      rw [if_neg hnm, if_neg hd]
  rw [hmap]
  rfl

/-- C1: at NIGHT_END entry (with the win gate passed, as in every
reachable night), a player's `isAlive` is forced to false exactly when
`(isDying && !isProtected) || isPoisoned` held at entry, and every player
failing that condition is returned untouched — in particular a dying,
protected, poisoned player dies, a dying, protected, unpoisoned player
survives, and no other player's `isAlive` changes. -/
theorem nightEnd_death_resolution (s : GameState) (rand : Nat → Nat)
    (hφ : s.phase = GamePhase.NIGHT_END)
    (hw : aliveWolves s.players ≠ 0)
    (hg : aliveWolves s.players < aliveGood s.players)
    (hids : (s.players.map Player.id).Nodup) :
    (runPhaseLogic rand s).players =
      s.players.map (fun p =>
        if deathCond p then { p with isAlive := false } else p) := by
  have h1 : s.phase ≠ GamePhase.SETUP := by rw [hφ]; decide
  have h2 : s.phase ≠ GamePhase.GAME_OVER := by rw [hφ]; decide
  rw [runPhaseLogic_no_win s rand h1 h2 hw hg, phaseEntryLogic_night_end s rand hφ,
    nightEndLogic_eq s hids]

/-- Witness for C1: a protected-and-poisoned player dies, a protected
dying player survives, an unprotected dying player dies, an unmarked
player is untouched. -/
theorem nightEnd_death_resolution_witness :
    (runPhaseLogic (fun _ => 0)
        { initialState with
          phase := GamePhase.NIGHT_END
          players :=
            [mkPlayer "p-0" Role.WEREWOLF true,
             { mkPlayer "p-1" Role.VILLAGER true with isDying := true, isProtected := true, isPoisoned := true },
             { mkPlayer "p-2" Role.VILLAGER true with isDying := true, isProtected := true },
             { mkPlayer "p-3" Role.SEER true with isDying := true },
             mkPlayer "p-4" Role.WITCH true] }).players =
      [mkPlayer "p-0" Role.WEREWOLF true,
       { mkPlayer "p-1" Role.VILLAGER true with isAlive := false, isDying := true, isProtected := true, isPoisoned := true },
       { mkPlayer "p-2" Role.VILLAGER true with isDying := true, isProtected := true },
       { mkPlayer "p-3" Role.SEER true with isAlive := false, isDying := true },
       mkPlayer "p-4" Role.WITCH true] := by
  rw [nightEnd_death_resolution _ (fun _ => 0) rfl (by decide) (by decide) (by decide)]
  decide

/-! ### C7: the werewolf kill paths -/

/-- Roster for the C7 counterexample: a human werewolf, a second alive
werewolf, and one alive villager, in the NIGHT_WEREWOLF phase. -/
def twoWolfState : GameState :=
  { initialState with
    phase := GamePhase.NIGHT_WEREWOLF
    players := [mkPlayer "p-0" Role.WEREWOLF true, mkPlayer "p-1" Role.WEREWOLF true, mkPlayer "p-2" Role.VILLAGER true]
    humanPlayerId := some "p-0" }

/-- Counterexample to C7: on the human-confirmed kill path the handler
never checks the target's role, so a human werewolf confirming a fellow
alive werewolf records that werewolf as `lastKilledId` and marks it dying
— the kill did not select a non-werewolf player. -/
theorem werewolf_kill_counterexample :
    (handleHumanAction (some "p-1") twoWolfState).lastKilledId = some "p-1" ∧
    ((handleHumanAction (some "p-1") twoWolfState).players.filter
        (fun p => p.isDying)).map Player.role = [Role.WEREWOLF] ∧
    (twoWolfState.players.find? (fun p => decide (p.id = "p-1"))).map
        (fun p => (p.role, p.isAlive)) = some (Role.WEREWOLF, true) := by
  decide

/-- C7 (amended): the bot kill path selects one alive non-werewolf from
the pool, records its id as `lastKilledId` (overwriting any previous
value) and marks it dying, and no-ops on an empty pool without failing;
the human-confirmed kill path records whatever target id was confirmed
and marks the matching players dying without checking the target's role
(the presentation layer, not the handler, restricts the selection), and
no-ops when no target is confirmed. -/
theorem werewolf_kill_paths (s : GameState) (r : Nat) (t : String) :
    (aliveGoodPool s = [] → handleBotWerewolfAction r s = s) ∧
    (aliveGoodPool s ≠ [] →
      ∃ target ∈ aliveGoodPool s,
        target.isAlive = true ∧ target.role ≠ Role.WEREWOLF ∧
        handleBotWerewolfAction r s =
          { s with
            lastKilledId := some target.id
            players := s.players.map (fun p =>
              if p.id = target.id then { p with isDying := true } else p) }) ∧
    (∀ hu, getHumanPlayer s = some hu → hu.isAlive = true →
      hu.role = Role.WEREWOLF → s.phase = GamePhase.NIGHT_WEREWOLF → t ≠ "" →
      handleHumanAction (some t) s =
        { s with
          lastKilledId := some t
          players := s.players.map (fun p =>
            if p.id = t then { p with isDying := true } else p)
          phase := GamePhase.NIGHT_SEER }) ∧
    (s.phase = GamePhase.NIGHT_WEREWOLF → handleHumanAction none s = s) := by
  refine ⟨?_, ?_, ?_, ?_⟩
  · intro he
    simp [handleBotWerewolfAction, he]
  · intro hne
    have hpos : 0 < (aliveGoodPool s).length := List.length_pos.mpr hne
    have hmem := List.get_mem (aliveGoodPool s)
      (r % (aliveGoodPool s).length) (Nat.mod_lt r hpos)
    refine ⟨(aliveGoodPool s).get ⟨r % (aliveGoodPool s).length, Nat.mod_lt r hpos⟩,
      hmem, ?_, ?_, ?_⟩
    · have hprop := (List.mem_filter.mp hmem).2
      simp only [Bool.and_eq_true] at hprop
      exact hprop.1
    · have hprop := (List.mem_filter.mp hmem).2
      simp only [Bool.and_eq_true, Bool.not_eq_true', decide_eq_false_iff_not] at hprop
      exact hprop.2
    · unfold handleBotWerewolfAction
      rw [dif_pos hpos]
      rfl
  · intro hu hhu halive hrole hφ hne
    have hst : strTruthy (some t) = true := by simp [strTruthy, hne]
    have hred : handleHumanAction (some t) s =
        dispatchAll s
          [Action.SET_LAST_KILLED (some t),
           Action.UPDATE_PLAYER t { isDying := some true },
           Action.NEXT_PHASE GamePhase.NIGHT_SEER] := by
      unfold handleHumanAction
      rw [hhu]
      simp [halive, hrole, hφ, hst]
    rw [hred]
    rfl
  · intro hφ
    unfold handleHumanAction
    cases hhu : getHumanPlayer s with
    | none => rfl
    | some hu =>
        cases ha : hu.isAlive
        · simp [ha]
        · simp [ha, hφ, strTruthy]

/-- Witness for the amended C7: the bot path no-ops when every
non-werewolf is dead, and the human path kills the confirmed villager. -/
theorem werewolf_kill_paths_witness :
    handleBotWerewolfAction 3
        { initialState with
          phase := GamePhase.NIGHT_WEREWOLF
          players := [mkPlayer "p-0" Role.WEREWOLF true, mkPlayer "p-1" Role.VILLAGER false] } =
      { initialState with
        phase := GamePhase.NIGHT_WEREWOLF
        players := [mkPlayer "p-0" Role.WEREWOLF true, mkPlayer "p-1" Role.VILLAGER false] } ∧
    handleHumanAction (some "p-2") twoWolfState =
      { twoWolfState with
        lastKilledId := some "p-2"
        players := twoWolfState.players.map (fun p =>
          if p.id = "p-2" then { p with isDying := true } else p)
        phase := GamePhase.NIGHT_SEER } := by
  constructor
  · exact (werewolf_kill_paths _ 3 "x").1 (by decide)
  · exact (werewolf_kill_paths twoWolfState 0 "p-2").2.2.1
      (mkPlayer "p-0" Role.WEREWOLF true) (by decide) rfl rfl rfl (by decide)

/-! ### C5: the witch potions are single-use across a game -/

/-- Pointwise monotonicity of the potion pair: a potion that is available
in the newer state was available in the older one. -/
def potsLe (w v : WitchPotions) : Prop :=
  (w.save = true → v.save = true) ∧ (w.poison = true → v.poison = true)

theorem potsLe_refl (w : WitchPotions) : potsLe w w := ⟨id, id⟩

theorem potsLe_of_eq {w v : WitchPotions} (h : w = v) : potsLe w v := h ▸ potsLe_refl w

theorem potsLe_trans {w v u : WitchPotions} (h1 : potsLe w v) (h2 : potsLe v u) :
    potsLe w u := ⟨fun h => h2.1 (h1.1 h), fun h => h2.2 (h1.2 h)⟩

/-- A fold whose step never touches the potions leaves them unchanged. -/
theorem foldl_keeps_potions {β : Type} (f : GameState → β → GameState)
    (h : ∀ st b, (f st b).witchPotions = st.witchPotions) (l : List β)
    (s : GameState) : (l.foldl f s).witchPotions = s.witchPotions := by
  induction l generalizing s with
  | nil => rfl
  | cons b rest ih => rw [List.foldl_cons, ih, h]

theorem handleBotVoting_potions (rand : Nat → Nat) (s : GameState) :
    (handleBotVoting rand s).witchPotions = s.witchPotions := by
  unfold handleBotVoting
  refine foldl_keeps_potions _ ?_ _ s
  intro st b
  dsimp only
  split
  · split
    · rfl
    · rfl
  · rfl

theorem nightStartLogic_potions (s : GameState) :
    (nightStartLogic s).witchPotions = s.witchPotions := by
  rw [nightStartLogic_eq]

/-- A dispatched batch whose actions all leave the potions alone leaves
the potions alone. -/
theorem dispatchAll_keeps_potions (as : List Action)
    (h : ∀ a ∈ as, ∀ st, (gameReducer st a).witchPotions = st.witchPotions)
    (s : GameState) : (dispatchAll s as).witchPotions = s.witchPotions := by
  induction as generalizing s with
  | nil => rfl
  | cons a rest ih =>
      rw [show dispatchAll s (a :: rest) = dispatchAll (gameReducer s a) rest from rfl,
        ih (fun b hb st => h b (List.mem_cons_of_mem a hb) st),
        h a (List.mem_cons_self a rest)]

theorem nightEndLogic_potions (s : GameState) :
    (nightEndLogic s).witchPotions = s.witchPotions := by
  unfold nightEndLogic
  apply dispatchAll_keeps_potions
  intro a ha st
  rcases List.mem_append.mp ha with hm | hm
  · obtain ⟨p, _, rfl⟩ := List.mem_map.mp hm
    rfl
  · rw [List.mem_singleton] at hm
    subst hm
    rfl

theorem dayExecuteLogic_potions (s : GameState) :
    (dayExecuteLogic s).witchPotions = s.witchPotions := by
  unfold dayExecuteLogic
  dsimp only
  split
  · split <;> rfl
  · rfl

theorem runPhaseLogic_potions (rand : Nat → Nat) (s : GameState) :
    (runPhaseLogic rand s).witchPotions = s.witchPotions := by
  have hbody : (phaseEntryLogic rand s).witchPotions = s.witchPotions := by
    unfold phaseEntryLogic
    split
    · exact nightStartLogic_potions s
    · exact nightEndLogic_potions s
    · exact handleBotVoting_potions rand s
    · exact dayExecuteLogic_potions s
    · rfl
  unfold runPhaseLogic
  split
  · split
    · rfl
    · split
      · rfl
      · exact hbody
  · exact hbody

theorem handleHumanAction_potions (t : Option String) (s : GameState) :
    (handleHumanAction t s).witchPotions = s.witchPotions := by
  unfold handleHumanAction
  split
  · rfl
  · split
    · rfl
    · split
      · rfl
      · split
        · split <;> rfl
        · split
          · split
            · split <;> rfl
            · rfl
          · split
            · split <;> rfl
            · rfl

theorem handleBotWerewolfAction_potions (r : Nat) (s : GameState) :
    (handleBotWerewolfAction r s).witchPotions = s.witchPotions := by
  unfold handleBotWerewolfAction
  dsimp only
  split <;> rfl

theorem skipPhase_potions (s : GameState) :
    (skipPhase s).witchPotions = s.witchPotions := by
  unfold skipPhase
  split
  · rfl
  · split <;> rfl

theorem handleWitchSave_potsLe (s : GameState) :
    potsLe (handleWitchSave s).witchPotions s.witchPotions := by
  unfold handleWitchSave
  split
  · split
    · split
      · exact ⟨fun h => (nomatch h), fun h => h⟩
      · exact potsLe_refl _
    · exact potsLe_refl _
  · exact potsLe_refl _

theorem handleWitchPoison_potsLe (t : Option String) (s : GameState) :
    potsLe (handleWitchPoison t s).witchPotions s.witchPotions := by
  unfold handleWitchPoison
  split
  · split
    · split
      · exact ⟨fun h => h, fun h => (nomatch h)⟩
      · exact potsLe_refl _
    · exact potsLe_refl _
  · exact potsLe_refl _

/-- One application-level event can only consume potions, never restore
them. -/
theorem stepEvent_potsLe (e : GameEvent) (s : GameState) :
    potsLe (stepEvent e s).witchPotions s.witchPotions := by
  cases e with
  | phaseEval rand => exact potsLe_of_eq (runPhaseLogic_potions rand s)
  | humanConfirm t => exact potsLe_of_eq (handleHumanAction_potions t s)
  | witchSave => exact handleWitchSave_potsLe s
  | witchPoison t => exact handleWitchPoison_potsLe t s
  | botWerewolf r => exact potsLe_of_eq (handleBotWerewolfAction_potions r s)
  | botSeer => exact potsLe_refl _
  | botWitch => exact potsLe_refl _
  | botVote rand => exact potsLe_of_eq (handleBotVoting_potions rand s)
  | skip => exact potsLe_of_eq (skipPhase_potions s)

theorem runEvents_potsLe (es : List GameEvent) (s : GameState) :
    potsLe (runEvents es s).witchPotions s.witchPotions := by
  induction es generalizing s with
  | nil => exact potsLe_refl _
  | cons e rest ih =>
      exact potsLe_trans (ih (stepEvent e s)) (stepEvent_potsLe e s)

theorem runEvents_append (es1 es2 : List GameEvent) (s : GameState) :
    runEvents (es1 ++ es2) s = runEvents es2 (runEvents es1 s) := by
  simp [runEvents, List.foldl_append]

/-- Once a monotone boolean observation of the trace is false it stays
false, so no flip ever occurs afterwards. -/
theorem flipCount_trace_zero (f : GameState → Bool)
    (hstep : ∀ e st, f (stepEvent e st) = true → f st = true)
    (es : List GameEvent) (s : GameState) (hs : f s = false) :
    flipCount ((traceStates s es).map f) = 0 := by
  induction es generalizing s with
  | nil => rfl
  | cons e rest ih =>
      have hnext : f (stepEvent e s) = false := by
        cases hval : f (stepEvent e s)
        · rfl
        · rw [hstep e s hval] at hs; cases hs
      have htail := ih (stepEvent e s) hnext
      cases rest with
      | nil =>
          simp [traceStates, flipCount, hs]
      | cons e2 rest2 =>
          have hshape : (traceStates s (e :: e2 :: rest2)).map f =
              f s :: f (stepEvent e s) ::
                (traceStates (stepEvent e2 (stepEvent e s)) rest2).map f := rfl
          have hshape2 : (traceStates (stepEvent e s) (e2 :: rest2)).map f =
              f (stepEvent e s) ::
                (traceStates (stepEvent e2 (stepEvent e s)) rest2).map f := rfl
          rw [hshape, hs, hnext]
          rw [hshape2, hnext] at htail
          show (if false && !false then 1 else 0) +
            flipCount (false ::
              (traceStates (stepEvent e2 (stepEvent e s)) rest2).map f) = 0
          rw [htail]
          rfl

/-- A monotone boolean observation flips at most once along any trace. -/
theorem flipCount_trace_le_one (f : GameState → Bool)
    (hstep : ∀ e st, f (stepEvent e st) = true → f st = true)
    (es : List GameEvent) (s : GameState) :
    flipCount ((traceStates s es).map f) ≤ 1 := by
  induction es generalizing s with
  | nil => exact Nat.zero_le 1
  | cons e rest ih =>
      cases hs : f s
      · rw [flipCount_trace_zero f hstep (e :: rest) s hs]
        exact Nat.zero_le 1
      · cases rest with
        | nil =>
            cases hval : f (stepEvent e s) <;>
              simp [traceStates, flipCount, hs, hval]
        | cons e2 rest2 =>
            have hshape : (traceStates s (e :: e2 :: rest2)).map f =
                f s :: f (stepEvent e s) ::
                  (traceStates (stepEvent e2 (stepEvent e s)) rest2).map f := rfl
            have hshape2 : (traceStates (stepEvent e s) (e2 :: rest2)).map f =
                f (stepEvent e s) ::
                  (traceStates (stepEvent e2 (stepEvent e s)) rest2).map f := rfl
            rw [hshape, hs]
            cases hval : f (stepEvent e s)
            · have hzero := flipCount_trace_zero f hstep (e2 :: rest2)
                (stepEvent e s) hval
              rw [hshape2, hval] at hzero
              show (if true && !false then 1 else 0) +
                flipCount (false ::
                  (traceStates (stepEvent e2 (stepEvent e s)) rest2).map f) ≤ 1
              rw [hzero]
              exact Nat.le_refl 1
            · have hle := ih (stepEvent e s)
              rw [hshape2, hval] at hle
              show (if true && !true then 1 else 0) +
                flipCount (true ::
                  (traceStates (stepEvent e2 (stepEvent e s)) rest2).map f) ≤ 1
              simpa using hle

theorem handleWitchSave_noop (s : GameState) (h : s.witchPotions.save = false) :
    handleWitchSave s = s := by
  unfold handleWitchSave
  rw [h]
  split
  · rfl
  · rfl

theorem handleWitchPoison_noop (t : Option String) (s : GameState)
    (h : s.witchPotions.poison = false) : handleWitchPoison t s = s := by
  unfold handleWitchPoison
  rw [h]
  split
  · rfl
  · rfl

/-- C5: along any run of application-level events of a single game (no
game start or reset in between), each of `witchPotions.save` and
`witchPotions.poison` flips from true to false at most once and is never
restored (availability at a later point implies availability at any
earlier point), and once a potion is false the corresponding witch action
returns the state unchanged — hence, by the monotonicity conjuncts, for
the rest of the game. -/
theorem witch_potions_single_use (s : GameState)
    (es pre post : List GameEvent) (t : Option String) :
    flipCount ((traceStates s es).map (fun st => st.witchPotions.save)) ≤ 1 ∧
    flipCount ((traceStates s es).map (fun st => st.witchPotions.poison)) ≤ 1 ∧
    ((runEvents (pre ++ post) s).witchPotions.save = true →
      (runEvents pre s).witchPotions.save = true) ∧
    ((runEvents (pre ++ post) s).witchPotions.poison = true →
      (runEvents pre s).witchPotions.poison = true) ∧
    ((runEvents pre s).witchPotions.save = false →
      handleWitchSave (runEvents pre s) = runEvents pre s) ∧
    ((runEvents pre s).witchPotions.poison = false →
      handleWitchPoison t (runEvents pre s) = runEvents pre s) := by
  refine ⟨?_, ?_, ?_, ?_, ?_, ?_⟩
  · exact flipCount_trace_le_one _ (fun e st h => (stepEvent_potsLe e st).1 h) es s
  · exact flipCount_trace_le_one _ (fun e st h => (stepEvent_potsLe e st).2 h) es s
  · intro h
    rw [runEvents_append] at h
    exact (runEvents_potsLe post (runEvents pre s)).1 h
  · intro h
    rw [runEvents_append] at h
    exact (runEvents_potsLe post (runEvents pre s)).2 h
  · exact handleWitchSave_noop _
  · exact handleWitchPoison_noop t _

/-- Witness for C5: after the save potion is spent on night one, a second
save attempt is a no-op, and the save trace flips exactly within the
bound. -/
theorem witch_potions_single_use_witness :
    flipCount ((traceStates
        { initialState with
          players := [mkPlayer "p-0" Role.VILLAGER true]
          lastKilledId := some "p-0" }
        [GameEvent.witchSave, GameEvent.witchSave]).map
      (fun st => st.witchPotions.save)) ≤ 1 ∧
    handleWitchSave (runEvents [GameEvent.witchSave]
        { initialState with
          players := [mkPlayer "p-0" Role.VILLAGER true]
          lastKilledId := some "p-0" }) =
      runEvents [GameEvent.witchSave]
        { initialState with
          players := [mkPlayer "p-0" Role.VILLAGER true]
          lastKilledId := some "p-0" } := by
  constructor
  · exact (witch_potions_single_use _
      [GameEvent.witchSave, GameEvent.witchSave] [] [] none).1
  · exact (witch_potions_single_use _ []
      [GameEvent.witchSave] [] none).2.2.2.2.1 (by decide)

/-! ### C8: the role distribution and the seat shuffle -/

/-- One in-bounds destructuring swap permutes the list. -/
theorem swapAt_perm {α : Type} [DecidableEq α] (l : List α) (i j : Nat) :
    (swapAt l i j).Perm l := by
  rcases hi : l.get? i with _ | x
  · have heq : swapAt l i j = l := by
      unfold swapAt
      rw [hi]
    rw [heq]
  · rcases hj : l.get? j with _ | y
    · have heq : swapAt l i j = l := by
        unfold swapAt
        rw [hi, hj]
      rw [heq]
    · have heq : swapAt l i j = (l.set i y).set j x := by
        unfold swapAt
        rw [hi, hj]
      rw [heq]
      obtain ⟨hilt, hix⟩ := List.get?_eq_some.mp hi
      obtain ⟨hjlt, hjy⟩ := List.get?_eq_some.mp hj
      have hlx : l[i] = x := by rw [← hix, List.get_eq_getElem]
      have hly : l[j] = y := by rw [← hjy, List.get_eq_getElem]
      have hxmem : x ∈ l := hlx ▸ List.getElem_mem hilt
      have hymem : y ∈ l := hly ▸ List.getElem_mem hjlt
      rw [List.perm_iff_count]
      intro b
      have hcx : (x == b) = true → 1 ≤ l.count b := fun h =>
        List.one_le_count_iff.mpr (beq_iff_eq.mp h ▸ hxmem)
      have hcy : (y == b) = true → 1 ≤ l.count b := fun h =>
        List.one_le_count_iff.mpr (beq_iff_eq.mp h ▸ hymem)
      by_cases hij : i = j
      · subst hij
        have hxy : x = y := by rw [← hlx, hly]
        subst hxy
        rw [List.set_set, List.count_set x b l i hilt, hlx]
        by_cases hxb : (x == b) = true
        · rw [if_pos hxb]
          have h1 := hcx hxb
          omega
        · rw [if_neg hxb]
          omega
      · have hjlt' : j < (l.set i y).length := by
          rw [List.length_set]
          exact hjlt
        rw [List.count_set x b (l.set i y) j hjlt',
          List.getElem_set, if_neg hij, hly,
          List.count_set y b l i hilt, hlx]
        by_cases hxb : (x == b) = true <;> by_cases hyb : (y == b) = true
        · rw [if_pos hxb, if_pos hyb]
          have h1 := hcx hxb
          omega
        · rw [if_pos hxb, if_neg hyb]
          have h1 := hcx hxb
          omega
        · rw [if_neg hxb, if_pos hyb]
          omega
        · rw [if_neg hxb, if_neg hyb]
          omega

/-- The source's Fisher-Yates loop permutes the list for every draw
sequence: the shuffle changes order only, never the multiset of roles. -/
theorem fisherYates_perm {α : Type} [DecidableEq α] (randj : Nat → Nat)
    (l : List α) : (fisherYates randj l).Perm l := by
  unfold fisherYates
  generalize downIndices l.length = idxs
  induction idxs generalizing l with
  | nil => exact List.Perm.refl l
  | cons i rest ih =>
      rw [List.foldl_cons]
      exact (ih (swapAt l i (randj i % (i + 1)))).trans
        (swapAt_perm l i (randj i % (i + 1)))

/-- C8: for every supported player count `n` in `[6, 18]` the distribution
returns exactly `n` roles with at least one WEREWOLF and at least one
non-WEREWOLF (the multiset is a function of `n` alone, the definition
being deterministic), the seat shuffle of `handleStartGame` only permutes
that sequence for every draw sequence, and a count outside `[6, 18]`
yields a `ConfigurationError`. -/
theorem role_distribution_spec (n : Nat) (rj : Nat → Nat) :
    (6 ≤ n → n ≤ 18 →
      ∃ roles, getRoleDistribution n = Except.ok roles ∧
        roles.length = n ∧ Role.WEREWOLF ∈ roles ∧
        (∃ r ∈ roles, r ≠ Role.WEREWOLF) ∧
        (fisherYates rj roles).Perm roles) ∧
    ((n < 6 ∨ 18 < n) → ∃ e, getRoleDistribution n = Except.error e) := by
  constructor
  · intro h6 h18
    have key : ∃ roles, getRoleDistribution n = Except.ok roles ∧
        roles.length = n ∧ Role.WEREWOLF ∈ roles ∧
        (∃ r ∈ roles, r ≠ Role.WEREWOLF) := by
      interval_cases n <;> exact ⟨_, rfl, by decide, by decide, by decide⟩
    obtain ⟨roles, hok, hlen, hw, hnw⟩ := key
    exact ⟨roles, hok, hlen, hw, hnw, fisherYates_perm rj roles⟩
  · intro h
    rw [getRoleDistribution, if_pos h]
    exact ⟨_, rfl⟩

/-- Witness for C8 at the supported count 6 and the unsupported count
19. -/
theorem role_distribution_spec_witness :
    (∃ roles, getRoleDistribution 6 = Except.ok roles ∧
      roles.length = 6 ∧ Role.WEREWOLF ∈ roles ∧
      (∃ r ∈ roles, r ≠ Role.WEREWOLF) ∧
      (fisherYates (fun i => i + 1) roles).Perm roles) ∧
    (∃ e, getRoleDistribution 19 = Except.error e) :=
  ⟨(role_distribution_spec 6 (fun i => i + 1)).1 (by decide) (by decide),
   (role_distribution_spec 19 (fun i => i + 1)).2 (by decide)⟩

/-! ### C3: the DAY_EXECUTE vote tally -/

/-- JavaScript object read `votes[k] || 0` over the association-list
model of the `votes` object. -/
def getCount (entries : List (String × Nat)) (k : String) : Nat :=
  ((entries.find? (fun e => decide (e.1 = k))).map Prod.snd).getD 0

theorem getCount_nil (k : String) : getCount [] k = 0 := rfl

theorem getCount_bumpVote (entries : List (String × Nat)) (t k : String) :
    getCount (bumpVote entries t) k =
      getCount entries k + (if k = t then 1 else 0) := by
  induction entries with
  | nil =>
      by_cases hkt : k = t
      · subst hkt
        simp [bumpVote, getCount]
      · simp [bumpVote, getCount, Ne.symm hkt, hkt]
  | cons e rest ih =>
      obtain ⟨ek, en⟩ := e
      by_cases het : ek = t
      · subst het
        by_cases hke : k = ek
        · subst hke
          simp [bumpVote, getCount]
        · simp [bumpVote, getCount, Ne.symm hke, hke]
      · by_cases hke : k = ek
        · subst hke
          have hne : ¬t = k := fun h => het h.symm
          simp [bumpVote, getCount, het, hne]
        · simp only [bumpVote, if_neg het]
          simp [getCount, Ne.symm hke] at ih ⊢
          exact ih

theorem keys_bumpVote (entries : List (String × Nat)) (t : String) :
    (bumpVote entries t).map Prod.fst =
      if t ∈ entries.map Prod.fst then entries.map Prod.fst
      else entries.map Prod.fst ++ [t] := by
  induction entries with
  | nil => simp [bumpVote]
  | cons e rest ih =>
      obtain ⟨ek, en⟩ := e
      by_cases het : ek = t
      · subst het
        simp [bumpVote]
      · simp only [bumpVote, if_neg het, List.map_cons, List.mem_cons]
        rw [ih]
        by_cases hmem : t ∈ rest.map Prod.fst
        · rw [if_pos hmem, if_pos (Or.inr hmem)]
        · rw [if_neg hmem, if_neg ?hne]
          · simp
          · rintro (h | h)
            · exact het h.symm
            · exact hmem h

theorem pos_bumpVote (entries : List (String × Nat)) (t : String)
    (h : ∀ x ∈ entries, 1 ≤ x.2) : ∀ x ∈ bumpVote entries t, 1 ≤ x.2 := by
  induction entries with
  | nil =>
      intro x hx
      rw [bumpVote, List.mem_singleton] at hx
      rw [hx]
  | cons e rest ih =>
      obtain ⟨ek, en⟩ := e
      intro x hx
      rw [bumpVote] at hx
      by_cases het : ek = t
      · rw [if_pos het] at hx
        rcases List.mem_cons.mp hx with hx1 | hx2
        · rw [hx1]
          exact Nat.succ_le_succ (Nat.zero_le en)
        · exact h x (List.mem_cons_of_mem _ hx2)
      · rw [if_neg het] at hx
        rcases List.mem_cons.mp hx with hx1 | hx2
        · rw [hx1]
          exact h (ek, en) (List.mem_cons_self _ _)
        · exact ih (fun y hy => h y (List.mem_cons_of_mem _ hy)) x hx2

theorem nodup_keys_bumpVote (entries : List (String × Nat)) (t : String)
    (h : (entries.map Prod.fst).Nodup) :
    ((bumpVote entries t).map Prod.fst).Nodup := by
  rw [keys_bumpVote]
  by_cases hmem : t ∈ entries.map Prod.fst
  · rw [if_pos hmem]
    exact h
  · rw [if_neg hmem]
    simp [List.nodup_append, h, hmem]

/-- The tally fold keeps the object well formed and counts exactly the
processed votes. -/
theorem tally_foldl_spec (vl : List String) :
    ∀ entries, (entries.map Prod.fst).Nodup → (∀ x ∈ entries, 1 ≤ x.2) →
      ((vl.foldl bumpVote entries).map Prod.fst).Nodup ∧
      (∀ x ∈ vl.foldl bumpVote entries, 1 ≤ x.2) ∧
      (∀ k, getCount (vl.foldl bumpVote entries) k =
        getCount entries k + vl.count k) := by
  induction vl with
  | nil =>
      intro e h1 h2
      exact ⟨h1, h2, fun k => by simp⟩
  | cons v rest ih =>
      intro e h1 h2
      have h1' := nodup_keys_bumpVote e v h1
      have h2' := pos_bumpVote e v h2
      obtain ⟨a, b, c⟩ := ih (bumpVote e v) h1' h2'
      refine ⟨a, b, fun k => ?_⟩
      rw [List.foldl_cons] at *
      rw [c k, getCount_bumpVote, List.count_cons]
      by_cases hkv : k = v
      · subst hkv
        simp
        omega
      · have hvk : ¬v = k := fun h => hkv h.symm
        simp [hkv, hvk]

/-- With distinct keys, an entry's stored count is what the object read
returns for its key. -/
theorem getCount_of_mem (entries : List (String × Nat))
    (h : (entries.map Prod.fst).Nodup) (x : String × Nat) (hx : x ∈ entries) :
    getCount entries x.1 = x.2 := by
  induction entries with
  | nil => cases hx
  | cons e rest ih =>
      rcases List.mem_cons.mp hx with hx1 | hx2
      · rw [hx1]
        simp [getCount]
      · have hne : ¬e.1 = x.1 := by
          intro heq
          rw [List.map_cons, List.nodup_cons] at h
          exact h.1 (heq ▸ List.mem_map_of_mem Prod.fst hx2)
        have ih' := ih (by
          rw [List.map_cons, List.nodup_cons] at h
          exact h.2) hx2
        simpa [getCount, hne] using ih'

/-- A key the object reads back positively is stored as an entry with
that count. -/
theorem mem_of_getCount_pos (entries : List (String × Nat)) (k : String)
    (h : 1 ≤ getCount entries k) : (k, getCount entries k) ∈ entries := by
  unfold getCount at h ⊢
  cases hf : entries.find? (fun e => decide (e.1 = k)) with
  | none =>
      rw [hf] at h
      simp at h
  | some x =>
      rw [hf] at h
      have hp := List.find?_some hf
      have hmem := List.mem_of_find?_eq_some hf
      rw [decide_eq_true_eq] at hp
      have hxeta : (k, x.2) = x := by
        rw [← hp]
      simpa [hxeta] using hmem

/-- Maximum count stored in the `votes` object. -/
def maxCount (entries : List (String × Nat)) : Nat :=
  entries.foldl (fun a e => max a e.2) 0

theorem init_le_foldl_max (l : List (String × Nat)) (a : Nat) :
    a ≤ l.foldl (fun m e => max m e.2) a := by
  induction l generalizing a with
  | nil => exact Nat.le_refl a
  | cons e rest ih =>
      exact Nat.le_trans (Nat.le_max_left a e.2) (ih (max a e.2))

theorem le_foldl_max_of_mem (l : List (String × Nat)) (x : String × Nat)
    (hx : x ∈ l) : ∀ a, x.2 ≤ l.foldl (fun m e => max m e.2) a := by
  induction l with
  | nil => cases hx
  | cons e rest ih =>
      intro a
      rcases List.mem_cons.mp hx with hx1 | hx2
      · rw [hx1]
        exact Nat.le_trans (Nat.le_max_right a e.2)
          (init_le_foldl_max rest (max a e.2))
      · exact ih hx2 (max a e.2)

theorem le_maxCount_of_mem (l : List (String × Nat)) (x : String × Nat)
    (hx : x ∈ l) : x.2 ≤ maxCount l :=
  le_foldl_max_of_mem l x hx 0

theorem foldl_max_le (l : List (String × Nat)) (n : Nat) :
    ∀ a, a ≤ n → (∀ x ∈ l, x.2 ≤ n) → l.foldl (fun m e => max m e.2) a ≤ n := by
  induction l with
  | nil => exact fun a ha _ => ha
  | cons e rest ih =>
      intro a ha h
      exact ih (max a e.2)
        (Nat.max_le.mpr ⟨ha, h e (List.mem_cons_self _ _)⟩)
        (fun x hx => h x (List.mem_cons_of_mem _ hx))

theorem maxCount_le (l : List (String × Nat)) (n : Nat)
    (h : ∀ x ∈ l, x.2 ≤ n) : maxCount l ≤ n :=
  foldl_max_le l n 0 (Nat.zero_le n) h

theorem maxCount_append_singleton (l : List (String × Nat)) (x : String × Nat) :
    maxCount (l ++ [x]) = max (maxCount l) x.2 := by
  simp [maxCount, List.foldl_append]

theorem maxCount_pos_ne_nil (l : List (String × Nat)) (h : 1 ≤ maxCount l) :
    l ≠ [] := by
  intro hnil
  rw [hnil] at h
  cases h

theorem voteStep_lt {acc : Nat × Option String × Bool} {e : String × Nat}
    (h : acc.1 < e.2) : voteStep acc e = (e.2, some e.1, false) := by
  unfold voteStep
  rw [if_pos h]

theorem voteStep_tie {acc : Nat × Option String × Bool} {e : String × Nat}
    (h1 : ¬acc.1 < e.2) (h2 : e.2 = acc.1) :
    voteStep acc e = (acc.1, acc.2.1, true) := by
  unfold voteStep
  rw [if_neg h1, if_pos h2]

theorem voteStep_low {acc : Nat × Option String × Bool} {e : String × Nat}
    (h1 : ¬acc.1 < e.2) (h2 : ¬e.2 = acc.1) : voteStep acc e = acc := by
  unfold voteStep
  rw [if_neg h1, if_neg h2]

/-- The `Object.entries` maximum scan: the running maximum ends at the
true maximum, the recorded victim holds an entry with the maximal count,
and the tie flag is set exactly when at least two entries share the
maximal count. -/
theorem voteScan_spec (entries : List (String × Nat)) :
    (∀ x ∈ entries, 1 ≤ x.2) →
      (entries.foldl voteStep (0, none, false)).1 = maxCount entries ∧
      (entries ≠ [] → ∃ k, (entries.foldl voteStep (0, none, false)).2.1 = some k ∧
        (k, maxCount entries) ∈ entries) ∧
      ((entries.foldl voteStep (0, none, false)).2.2 = true ↔
        2 ≤ entries.countP (fun e => decide (e.2 = maxCount entries))) := by
  induction entries using List.reverseRecOn with
  | nil =>
      intro _
      refine ⟨rfl, fun h => absurd rfl h, ?_⟩
      simp [maxCount]
  | append_singleton l x ih =>
      intro hpos
      have hposl : ∀ y ∈ l, 1 ≤ y.2 :=
        fun y hy => hpos y (List.mem_append_left _ hy)
      have hxpos : 1 ≤ x.2 :=
        hpos x (List.mem_append_right _ (List.mem_singleton_self x))
      obtain ⟨ihm, ihv, iht⟩ := ih hposl
      have hfold : (l ++ [x]).foldl voteStep (0, none, false) =
          voteStep (l.foldl voteStep (0, none, false)) x := by
        rw [List.foldl_append]
        rfl
      have hmax := maxCount_append_singleton l x
      rcases Nat.lt_trichotomy (l.foldl voteStep (0, none, false)).1 x.2 with hlt | heq | hgt
      · have hstep := voteStep_lt hlt
        have hmax2 : maxCount (l ++ [x]) = x.2 := by
          rw [hmax]
          exact Nat.max_eq_right (by omega)
        refine ⟨?_, ?_, ?_⟩
        · rw [hfold, hstep, hmax2]
        · intro _
          refine ⟨x.1, by rw [hfold, hstep], ?_⟩
          rw [hmax2]
          exact List.mem_append_right _ (by simp)
        · rw [hfold, hstep, hmax2]
          have hzero : l.countP (fun e => decide (e.2 = x.2)) = 0 := by
            rw [List.countP_eq_zero]
            intro y hy
            have hle := le_maxCount_of_mem l y hy
            simp only [decide_eq_true_eq]
            omega
          rw [List.countP_append, hzero]
          simp
      · have hnlt : ¬(l.foldl voteStep (0, none, false)).1 < x.2 := by omega
        have hstep := voteStep_tie hnlt heq.symm
        have hmaxl : maxCount l = x.2 := by rw [← ihm, heq]
        have hmax2 : maxCount (l ++ [x]) = maxCount l := by
          rw [hmax, hmaxl, Nat.max_self]
        have hlne : l ≠ [] := maxCount_pos_ne_nil l (by omega)
        obtain ⟨k, hk, hkmem⟩ := ihv hlne
        refine ⟨?_, ?_, ?_⟩
        · rw [hfold, hstep, hmax2]
          exact ihm
        · intro _
          exact ⟨k, by rw [hfold, hstep]; exact hk,
            by rw [hmax2]; exact List.mem_append_left _ hkmem⟩
        · rw [hfold, hstep, hmax2]
          have hone : 0 < l.countP (fun e => decide (e.2 = maxCount l)) :=
            List.countP_pos_iff.mpr ⟨(k, maxCount l), hkmem, by simp⟩
          have hxone : List.countP (fun e => decide (e.2 = maxCount l)) [x] = 1 := by
            simp [hmaxl]
          rw [List.countP_append, hxone]
          constructor
          · intro _
            omega
          · intro _
            rfl
      · have hnlt : ¬(l.foldl voteStep (0, none, false)).1 < x.2 := by omega
        have hne2 : ¬x.2 = (l.foldl voteStep (0, none, false)).1 := by omega
        have hstep := voteStep_low hnlt hne2
        have hmax2 : maxCount (l ++ [x]) = maxCount l := by
          rw [hmax]
          exact Nat.max_eq_left (by omega)
        have hlne : l ≠ [] := maxCount_pos_ne_nil l (by omega)
        obtain ⟨k, hk, hkmem⟩ := ihv hlne
        refine ⟨?_, ?_, ?_⟩
        · rw [hfold, hstep, hmax2]
          exact ihm
        · intro _
          exact ⟨k, by rw [hfold, hstep]; exact hk,
            by rw [hmax2]; exact List.mem_append_left _ hkmem⟩
        · rw [hfold, hstep, hmax2]
          have hxzero : List.countP (fun e => decide (e.2 = maxCount l)) [x] = 0 := by
            have hne : ¬x.2 = maxCount l := by omega
            simp [hne]
          rw [List.countP_append, hxzero, Nat.add_zero]
          exact iht

theorem votesCast_ne_empty (ps : List Player) :
    ∀ t ∈ votesCast ps, t ≠ "" := by
  intro t ht
  unfold votesCast at ht
  obtain ⟨p, _, hp⟩ := List.mem_filterMap.mp ht
  rcases hv : p.voteTargetId with _ | u
  · rw [hv] at hp
    cases hp
  · rw [hv] at hp
    have hp2 : (if u = "" then none else some u) = some t := hp
    by_cases hu : u = ""
    · rw [if_pos hu] at hp2
      cases hp2
    · rw [if_neg hu] at hp2
      injection hp2 with hp2
      rw [← hp2]
      exact hu

/-- Registered votes for a non-empty candidate id are exactly the alive
players voting for it. -/
theorem count_votesCast (s : GameState) (c : String) (hc : c ≠ "") :
    (votesCast s.players).count c = voteCount s c := by
  unfold votesCast voteCount
  rw [List.count_filterMap]
  apply List.countP_congr
  intro p _
  rcases hv : p.voteTargetId with _ | u
  · simp [hv]
  · by_cases hu : u = ""
    · subst hu
      have hc2 : ¬"" = c := fun h => hc h.symm
      simp [hv, hc2]
    · simp [hv, hu]

/-- The `votes` object is well formed and reads back the per-candidate
vote counts of the state. -/
theorem buildVotes_spec (s : GameState) :
    ((buildVotes s.players).map Prod.fst).Nodup ∧
    (∀ x ∈ buildVotes s.players, 1 ≤ x.2) ∧
    (∀ k, getCount (buildVotes s.players) k = (votesCast s.players).count k) := by
  obtain ⟨h1, h2, h3⟩ := tally_foldl_spec (votesCast s.players) []
    (by simp) (by simp)
  exact ⟨h1, h2, fun k => by
    have hk := h3 k
    rw [getCount_nil, Nat.zero_add] at hk
    exact hk⟩

/-- Every entry of the `votes` object carries a non-empty candidate id
and that candidate's exact vote count. -/
theorem buildVotes_entry (s : GameState) (x : String × Nat)
    (hx : x ∈ buildVotes s.players) : x.1 ≠ "" ∧ x.2 = voteCount s x.1 := by
  obtain ⟨h1, h2, h3⟩ := buildVotes_spec s
  have hval : getCount (buildVotes s.players) x.1 = x.2 :=
    getCount_of_mem _ h1 x hx
  have hpos : 0 < (votesCast s.players).count x.1 := by
    rw [← h3, hval]
    exact h2 x hx
  have hmemv : x.1 ∈ votesCast s.players := List.count_pos_iff.mp hpos
  have hne := votesCast_ne_empty s.players x.1 hmemv
  refine ⟨hne, ?_⟩
  rw [← hval, h3, count_votesCast s x.1 hne]

/-- A candidate with at least one vote owns an entry of the `votes`
object. -/
theorem buildVotes_mem_of_pos (s : GameState) (c : String) (hc : c ≠ "")
    (hpos : 1 ≤ voteCount s c) : (c, voteCount s c) ∈ buildVotes s.players := by
  obtain ⟨h1, h2, h3⟩ := buildVotes_spec s
  have hg : getCount (buildVotes s.players) c = voteCount s c := by
    rw [h3, count_votesCast s c hc]
  have hmem := mem_of_getCount_pos (buildVotes s.players) c
    (by rw [hg]; exact hpos)
  rwa [hg] at hmem

theorem two_le_length_of_mem_ne {α : Type} {l : List α} {x y : α}
    (hx : x ∈ l) (hy : y ∈ l) (hxy : x ≠ y) : 2 ≤ l.length := by
  cases l with
  | nil => cases hx
  | cons a tl =>
      cases tl with
      | nil =>
          rw [List.mem_singleton] at hx hy
          exact absurd (hx.trans hy.symm) hxy
      | cons b tl2 =>
          simp [List.length_cons]

/-- DAY_EXECUTE no-ops when the scan reports a tie. -/
theorem dayExecuteLogic_tie (s : GameState)
    (ht : ((buildVotes s.players).foldl voteStep (0, none, false)).2.2 = true) :
    dayExecuteLogic s = s := by
  simp only [dayExecuteLogic]
  rw [ht]
  simp

/-- DAY_EXECUTE no-ops when no vote was registered. -/
theorem dayExecuteLogic_empty (s : GameState)
    (hnil : buildVotes s.players = []) : dayExecuteLogic s = s := by
  simp only [dayExecuteLogic]
  rw [hnil]
  simp [strTruthy]

/-- DAY_EXECUTE eliminates the scanned victim when the scan reports a
truthy victim without a tie and the victim id belongs to the roster. -/
theorem dayExecuteLogic_kill (s : GameState) (c : String) (hc : c ≠ "")
    (hv : ((buildVotes s.players).foldl voteStep (0, none, false)).2.1 = some c)
    (ht : ((buildVotes s.players).foldl voteStep (0, none, false)).2.2 = false)
    (v : Player)
    (hfv : s.players.find? (fun p => decide (some p.id = some c)) = some v) :
    dayExecuteLogic s =
      { s with players :=
          s.players.map (fun p => if p.id = v.id then { p with isAlive := false } else p) } := by
  simp only [dayExecuteLogic]
  rw [hv, ht]
  have hstc : strTruthy (some c) = true := by simp [strTruthy, hc]
  rw [hstc, hfv]
  rfl

theorem length_le_one_of_all_eq_nodup {l : List (String × Nat)}
    {x0 : String × Nat} (hall : ∀ y ∈ l, y = x0)
    (hnd : (l.map Prod.fst).Nodup) : l.length ≤ 1 := by
  cases l with
  | nil => simp
  | cons a tl =>
      cases tl with
      | nil => simp
      | cons b tl2 =>
          exfalso
          have ha := hall a (List.mem_cons_self _ _)
          have hb := hall b (List.mem_cons_of_mem _ (List.mem_cons_self _ _))
          rw [List.map_cons, List.map_cons, List.nodup_cons] at hnd
          have hab : a.1 = b.1 := by rw [ha, hb]
          exact hnd.1 (List.mem_cons.mpr (Or.inl hab))

/-- C3: at DAY_EXECUTE entry (win gate passed), votes are tallied only
from alive players' truthy `voteTargetId` values — `voteCount` counts
exactly those, so dead players' stale votes and abstentions contribute
nothing — and: a candidate holding the strictly highest count alone is
the only player set not-alive; two candidates sharing the top count, or
no votes at all, eliminate nobody.  The roster hypothesis (every alive
player's vote names a roster player) holds in every reachable state
because votes are only ever set to roster ids. -/
theorem dayExecute_vote_resolution (s : GameState) (rand : Nat → Nat)
    (hφ : s.phase = GamePhase.DAY_EXECUTE)
    (hw : aliveWolves s.players ≠ 0)
    (hg : aliveWolves s.players < aliveGood s.players)
    (htargets : ∀ p ∈ s.players, p.isAlive = true →
      p.voteTargetId = none ∨ ∃ q ∈ s.players, p.voteTargetId = some q.id) :
    (∀ c, c ≠ "" → 1 ≤ voteCount s c →
      (∀ d, d ≠ c → voteCount s d < voteCount s c) →
      (runPhaseLogic rand s).players =
        s.players.map (fun p => if p.id = c then { p with isAlive := false } else p)) ∧
    (∀ c d, c ≠ d → c ≠ "" → d ≠ "" → 1 ≤ voteCount s c →
      voteCount s c = voteCount s d → (∀ e, voteCount s e ≤ voteCount s c) →
      (runPhaseLogic rand s).players = s.players) ∧
    ((∀ c, voteCount s c = 0) → (runPhaseLogic rand s).players = s.players) := by
  have h1 : s.phase ≠ GamePhase.SETUP := by rw [hφ]; decide
  have h2 : s.phase ≠ GamePhase.GAME_OVER := by rw [hφ]; decide
  have hrun : runPhaseLogic rand s = dayExecuteLogic s := by
    rw [runPhaseLogic_no_win s rand h1 h2 hw hg,
      phaseEntryLogic_day_execute s rand hφ]
  obtain ⟨hnodup, hposE, hget⟩ := buildVotes_spec s
  refine ⟨?_, ?_, ?_⟩
  · intro c hcne hcpos hmaxlt
    have hcmem : (c, voteCount s c) ∈ buildVotes s.players :=
      buildVotes_mem_of_pos s c hcne hcpos
    have hentsne : buildVotes s.players ≠ [] := List.ne_nil_of_mem hcmem
    have hub : ∀ x ∈ buildVotes s.players, x.2 ≤ voteCount s c := by
      intro x hx
      obtain ⟨hxne, hxval⟩ := buildVotes_entry s x hx
      by_cases hxc : x.1 = c
      · rw [hxval, hxc]
      · rw [hxval]
        exact Nat.le_of_lt (hmaxlt x.1 hxc)
    have hM : maxCount (buildVotes s.players) = voteCount s c :=
      Nat.le_antisymm (maxCount_le _ _ hub) (le_maxCount_of_mem _ _ hcmem)
    obtain ⟨sm, sv, st⟩ := voteScan_spec (buildVotes s.players) hposE
    obtain ⟨k, hk, hkmem⟩ := sv hentsne
    have hkc : k = c := by
      obtain ⟨hkne, hkval⟩ :=
        buildVotes_entry s (k, maxCount (buildVotes s.players)) hkmem
      have hkval2 : maxCount (buildVotes s.players) = voteCount s k := hkval
      by_contra hne
      have hlt := hmaxlt k hne
      omega
    have htie : ((buildVotes s.players).foldl voteStep (0, none, false)).2.2 = false := by
      cases hst : ((buildVotes s.players).foldl voteStep (0, none, false)).2.2
      · rfl
      · exfalso
        have hcnt := st.mp hst
        rw [List.countP_eq_length_filter] at hcnt
        have hallc : ∀ y ∈ (buildVotes s.players).filter
            (fun e => decide (e.2 = maxCount (buildVotes s.players))),
            y = (c, voteCount s c) := by
          intro y hy
          have hymem := (List.mem_filter.mp hy).1
          have hyprop := (List.mem_filter.mp hy).2
          rw [decide_eq_true_eq] at hyprop
          obtain ⟨hyne, hyval⟩ := buildVotes_entry s y hymem
          have hy1 : y.1 = c := by
            by_contra hne
            have := hmaxlt y.1 hne
            omega
          have hy2 : y.2 = voteCount s c := by
            rw [hyval, hy1]
          calc y = (y.1, y.2) := rfl
            _ = (c, voteCount s c) := by rw [hy1, hy2]
        have hnodupF : (((buildVotes s.players).filter
            (fun e => decide (e.2 = maxCount (buildVotes s.players)))).map
              Prod.fst).Nodup :=
          List.Nodup.sublist (List.Sublist.map Prod.fst (List.filter_sublist _)) hnodup
        have hle1 := length_le_one_of_all_eq_nodup hallc hnodupF
        omega
    have hvoter : ∃ p ∈ s.players, p.isAlive = true ∧ p.voteTargetId = some c := by
      obtain ⟨p, hpf, hpd⟩ := List.countP_pos_iff.mp hcpos
      rw [decide_eq_true_eq] at hpd
      have hpm := List.mem_filter.mp hpf
      exact ⟨p, hpm.1, hpm.2, hpd⟩
    obtain ⟨p0, hp0mem, hp0alive, hp0vote⟩ := hvoter
    have hcid : ∃ q ∈ s.players, q.id = c := by
      rcases htargets p0 hp0mem hp0alive with hnone | ⟨q, hq, hqid⟩
      · rw [hp0vote] at hnone
        cases hnone
      · rw [hp0vote] at hqid
        injection hqid with hqid
        exact ⟨q, hq, hqid.symm⟩
    have hfsome : (s.players.find? (fun p => decide (some p.id = some c))).isSome = true := by
      rw [List.find?_isSome]
      obtain ⟨q, hq, hqid⟩ := hcid
      exact ⟨q, hq, by simp [hqid]⟩
    cases hfv : s.players.find? (fun p => decide (some p.id = some c)) with
    | none =>
        rw [hfv] at hfsome
        cases hfsome
    | some v =>
        have hvid : v.id = c := by
          have hp := List.find?_some hfv
          simpa using hp
        rw [hrun, dayExecuteLogic_kill s c hcne (hkc ▸ hk) htie v hfv, hvid]
  · intro c d hcd hcne hdne hcpos hceqd hub
    have hcmem : (c, voteCount s c) ∈ buildVotes s.players :=
      buildVotes_mem_of_pos s c hcne hcpos
    have hdmem : (d, voteCount s d) ∈ buildVotes s.players :=
      buildVotes_mem_of_pos s d hdne (by omega)
    have hubE : ∀ x ∈ buildVotes s.players, x.2 ≤ voteCount s c := by
      intro x hx
      obtain ⟨hxne, hxval⟩ := buildVotes_entry s x hx
      rw [hxval]
      exact hub x.1
    have hM : maxCount (buildVotes s.players) = voteCount s c :=
      Nat.le_antisymm (maxCount_le _ _ hubE) (le_maxCount_of_mem _ _ hcmem)
    obtain ⟨sm, sv, st⟩ := voteScan_spec (buildVotes s.players) hposE
    have hcf : (c, voteCount s c) ∈ (buildVotes s.players).filter
        (fun e => decide (e.2 = maxCount (buildVotes s.players))) :=
      List.mem_filter.mpr ⟨hcmem, by rw [decide_eq_true_eq, hM]⟩
    have hdf : (d, voteCount s d) ∈ (buildVotes s.players).filter
        (fun e => decide (e.2 = maxCount (buildVotes s.players))) :=
      List.mem_filter.mpr ⟨hdmem, by rw [decide_eq_true_eq, hM, hceqd]⟩
    have hne2 : ((c, voteCount s c) : String × Nat) ≠ (d, voteCount s d) := by
      intro h
      injection h with hh _
      exact hcd hh
    have h2le := two_le_length_of_mem_ne hcf hdf hne2
    have htie := st.mpr (by rw [List.countP_eq_length_filter]; exact h2le)
    rw [hrun, dayExecuteLogic_tie s htie]
  · intro hzero
    have hnil : votesCast s.players = [] := by
      rw [List.eq_nil_iff_forall_not_mem]
      intro t htmem
      have hne := votesCast_ne_empty s.players t htmem
      have hcount : 0 < (votesCast s.players).count t :=
        List.count_pos_iff.mpr htmem
      rw [count_votesCast s t hne] at hcount
      have := hzero t
      omega
    have hbnil : buildVotes s.players = [] := by
      unfold buildVotes
      rw [hnil]
      rfl
    rw [hrun, dayExecuteLogic_empty s hbnil]

/-- Concrete DAY_EXECUTE roster for the C3 witness: the lone wolf stays
outnumbered so the win gate passes; two alive players vote the same
candidate, the rest abstain. -/
def voteState : GameState :=
  { initialState with
    phase := GamePhase.DAY_EXECUTE
    players :=
      [mkPlayer "p-0" Role.VILLAGER true,
       { mkPlayer "p-1" Role.VILLAGER true with voteTargetId := some "p-0" },
       { mkPlayer "p-2" Role.SEER true with voteTargetId := some "p-0" },
       mkPlayer "p-3" Role.WITCH true,
       mkPlayer "p-4" Role.WEREWOLF true] }

/-- Witness for C3: the uniquely most-voted player is executed. -/
theorem dayExecute_vote_resolution_witness :
    (runPhaseLogic (fun _ => 0) voteState).players =
      voteState.players.map
        (fun p => if p.id = "p-0" then { p with isAlive := false } else p) := by
  refine (dayExecute_vote_resolution voteState (fun _ => 0) rfl (by decide)
    (by decide) (by decide)).1 "p-0" (by decide) (by decide) ?_
  intro d hd
  have hne : ¬"p-0" = d := fun h => hd h.symm
  have hL : voteCount voteState d = 0 := by
    simp [voteCount, voteState, mkPlayer, initialState, List.countP_cons, hne]
  have hR : voteCount voteState "p-0" = 2 := by decide
  omega

end AIWerewolf
